import Mathlib

/-!
Verification development for the Weekviewtest repository.

Two components are embedded:

* `WeekCalendar`: a shallow embedding of the life-in-weeks calendar logic in
  `script.js` (milestone handling, birthdate formatting, week counting).
  Host-environment primitives (`new Date(...)` parsing and
  `toLocaleDateString`) are passed in as explicit function parameters, and
  `Date` instants are epoch milliseconds (`Int`), as in the JavaScript
  runtime.

* `JonasER`: the entity-resolution engine described by the design
  document of the repository.  The implementation files of the engine (`engine.py`,
  `database.py`, `registry.py`, ...) are not present in the tree — only the
  project README — so every definition in this namespace is modelled from
  the specification text (sections 3, 4.1–4.5 of the design document).
  Floating-point weights in `[0,1]` are idealised as exact rationals `ℚ`.
-/

namespace WeekCalendar

/-- A JavaScript primitive value as it can appear in a milestone `age` field
coming from YAML: a number or a string.  `isZeroAge` in `script.js` compares
with strict equality against both `0` and `'0'`. -/
inductive JsVal where
  | num : Int → JsVal
  | str : String → JsVal
  deriving DecidableEq, Repr

/-- A milestone object (`{ age, title }`); the title may be absent
(`milestone.title || ''` in the source guards for that). -/
structure Milestone where
  age : JsVal
  title : Option String
  deriving DecidableEq, Repr

/-- Line 1 of `script.js`: `const defaultBirthdate = "1981-06-04";`. -/
def defaultBirthdate : String := "1981-06-04"

/-- Function `isZeroAge` (`script.js` lines 16–18): `value === 0 || value === '0'`. -/
def isZeroAge (value : JsVal) : Bool :=
  value == JsVal.num 0 || value == JsVal.str "0"

/-- Characters matched by `\s` in a JavaScript regular expression. -/
def isJsWhitespace (c : Char) : Bool :=
  c = ' ' || c = '\t' || c = '\n' || c = '\r' || c = '\x0b' || c = '\x0c' ||
  c = ' ' || c = ' ' || (' ' ≤ c && c ≤ ' ') ||
  c = ' ' || c = ' ' || c = ' ' || c = ' ' ||
  c = '　' || c = '﻿'

/-- Characters matched by `\w` in a JavaScript regular expression
(`[A-Za-z0-9_]`); `\b` is a boundary between such a character and any
other position. -/
def isJsWordChar (c : Char) : Bool :=
  ('A' ≤ c && c ≤ 'Z') || ('a' ≤ c && c ≤ 'z') || ('0' ≤ c && c ≤ '9') || c = '_'

/-- ASCII lower-casing, modelling the `i` flag of the regular expression. -/
def asciiLower (c : Char) : Char :=
  if 'A' ≤ c && c ≤ 'Z' then Char.ofNat (c.toNat + 32) else c

/-- Case-insensitive literal prefix match; returns the remaining input on
success. -/
def ciPrefix : List Char → List Char → Option (List Char)
  | [], rest => some rest
  | _ :: _, [] => none
  | p :: ps, c :: cs => if asciiLower c = asciiLower p then ciPrefix ps cs else none

/-- After the literal `birthday` there must be a `\b` word boundary: end of
input or a non-word character. -/
def wordBoundaryAfter : List Char → Bool
  | [] => true
  | c :: _ => !isJsWordChar c

/-- Match `birthday\b` (case-insensitively) at the head of the input. -/
def birthdayAtHead (s : List Char) : Bool :=
  match ciPrefix "birthday".toList s with
  | some rest => wordBoundaryAfter rest
  | none => false

/-- Match `^\s*birthday\b` against the input: skip leading whitespace, then
require `birthday` followed by a word boundary. -/
def birthdayAfterWs : List Char → Bool
  | [] => false
  | c :: cs =>
    if isJsWhitespace c then birthdayAfterWs cs else birthdayAtHead (c :: cs)

/-- Evaluation of `BIRTHDAY_TITLE_PATTERN.test s` for the regular expression
`/^\s*birthday\b/i` of `script.js` line 2. -/
def birthdayTitleTest (s : String) : Bool :=
  birthdayAfterWs s.data

/-- Function `formatBirthdate` (`script.js` lines 4–10).  Here `dateParse`
models `new Date(s).getTime()` with `none` for `NaN`, and `fmtDate` models
`toLocaleDateString` under the en-GB locale with numeric day, short month
and numeric year, applied to the parsed instant. -/
def formatBirthdate (dateParse : String → Option Int) (fmtDate : Int → String)
    (birthdate : String) : String :=
  match dateParse birthdate with
  | some t => fmtDate t
  | none => birthdate

/-- The `some(...)` test inside `ensureBirthdayMilestone`: an existing
milestone with age `0`/`'0'` whose title matches the birthday pattern. -/
def hasBirthdayMilestone (ms : List Milestone) : Bool :=
  ms.any fun m => isZeroAge m.age && birthdayTitleTest (m.title.getD "")

/-- Function `ensureBirthdayMilestone` (`script.js` lines 50–64).  The `birthdate` and
`milestones` arguments are optional to model JavaScript `undefined`/`null`;
an empty-string birthdate is falsy and also falls back to the default. -/
def ensureBirthdayMilestone (dateParse : String → Option Int)
    (fmtDate : Int → String) (birthdate : Option String)
    (milestones : Option (List Milestone)) : List Milestone :=
  let existingMilestones := milestones.getD []
  if hasBirthdayMilestone existingMilestones then existingMilestones
  else
    let safeBirthdate :=
      match birthdate with
      | some b => if b = "" then defaultBirthdate else b
      | none => defaultBirthdate
    let formattedBirthdate := formatBirthdate dateParse fmtDate safeBirthdate
    ⟨JsVal.num 0, some ("Birthday (" ++ formattedBirthdate ++ ")")⟩ ::
      existingMilestones

/-- Milliseconds in one week: `1000 * 60 * 60 * 24 * 7`. -/
def msPerWeek : Int := 1000 * 60 * 60 * 24 * 7

/-- Function `calculateWeeksLived` (`script.js` lines 79–85): both dates are epoch
milliseconds, `Math.abs` of their difference is divided by a week and
floored.  Both operands of `/` are non-negative here, so the Lean integer
division coincides with `Math.floor` of the real quotient. -/
def calculateWeeksLived (todayMs birthMs : Int) : Int :=
  let diffTime := |todayMs - birthMs|
  diffTime / msPerWeek

/-- Function `calculateTotalWeeks` (`script.js` lines 88–90). -/
def calculateTotalWeeks (lifeExpectancy : Int) : Int :=
  lifeExpectancy * 52

/-- The integer statistics computed by `updateStats` (`script.js` lines
138–149): weeks lived and weeks remaining.  The percentage is a
floating-point string (`toFixed`) and is not modelled. -/
structure Stats where
  weeksLived : Int
  weeksRemaining : Int
  deriving DecidableEq, Repr

/-- The numeric core of `updateStats` (`script.js` lines 138–149). -/
def updateStats (todayMs birthMs lifeExpectancy : Int) : Stats :=
  let weeksLived := calculateWeeksLived todayMs birthMs
  let totalWeeks := calculateTotalWeeks lifeExpectancy
  ⟨weeksLived, totalWeeks - weeksLived⟩

end WeekCalendar

namespace JonasER

/-- Attribute kinds are the string vocabulary (`ORG`, `GPE`, `PHONE`, ...). -/
abbrev Kind := String

abbrev EntityId := Nat

/-- Modelled from the spec: a Feature Set (design §3) is a per-observation
mapping from attribute kind to one or more string values, represented as an
association list so a kind can carry several values. -/
structure FeatureSet where
  attrs : List (Kind × String)
  deriving DecidableEq, Repr

/-- Modelled from the spec: a Claim (design §3, §4.4) is a
`(kind, value, weight, provenance observation id)` record attributed to an
entity. -/
structure Claim where
  kind : Kind
  value : String
  weight : ℚ
  prov : Nat
  deriving DecidableEq, Repr

/-- Modelled from the spec: the Weight Table (design §4.2) maps attribute
kinds to entropy weights in `[0,1]`, idealised as rationals. -/
abbrev WeightTable := List (Kind × ℚ)

/-- Modelled from the spec: `weight_of(kind)` (design §4.2), a pure lookup
defaulting to `0` for unknown kinds. -/
def weight_of (wt : WeightTable) (k : Kind) : ℚ :=
  match wt.find? (fun e => e.1 == k) with
  | some e => e.2
  | none => 0

/-- Modelled from the spec: an Observation Ledger entry (design §3, §4.1):
observation id, source id and content fingerprint of the normalized
payload. -/
structure Observation where
  obsId : Nat
  sourceId : String
  fingerprint : Nat
  deriving DecidableEq, Repr

/-- Modelled from the spec: the append-only Observation Ledger (design
§4.1), keyed by content fingerprint. -/
structure Ledger where
  nextObsId : Nat
  entries : List Observation
  deriving DecidableEq, Repr

/-- Modelled from the spec: `ingest(source_id, payload)` (design §4.1).  The
cryptographic fingerprint of the normalized payload is modelled by the
function parameter `fp`.  If the fingerprint is already present the
existing observation id is returned with `is_new = false` and the ledger is
untouched; otherwise the observation is persisted with a fresh id. -/
def ingest (fp : String → Nat) (led : Ledger) (sourceId payload : String) :
    (Nat × Bool) × Ledger :=
  let f := fp payload
  match led.entries.find? (fun o => o.fingerprint == f) with
  | some o => ((o.obsId, false), led)
  | none =>
    ((led.nextObsId, true),
      ⟨led.nextObsId + 1, ⟨led.nextObsId, sourceId, f⟩ :: led.entries⟩)

/-- Modelled from the spec: a registry entry (design §4.3): the trigger-kind
set and an opaque enricher identifier. -/
structure Registration where
  triggerKinds : List Kind
  enricher : Nat
  deriving DecidableEq, Repr

/-- Does the feature set contain at least one value of kind `k`? -/
def hasKind (fs : FeatureSet) (k : Kind) : Bool :=
  fs.attrs.any fun kv => kv.1 == k

/-- Modelled from the spec: `applicable_for(feature_set)` (design §4.3):
every registered enricher whose full trigger-kind set is a subset of the
kinds present in the feature set, in registration order. -/
def applicable_for (reg : List Registration) (fs : FeatureSet) :
    List Registration :=
  reg.filter fun r => r.triggerKinds.all (hasKind fs)

/-- The distinct attribute kinds of a feature set. -/
def kindsOf (fs : FeatureSet) : List Kind :=
  (fs.attrs.map Prod.fst).dedup

/-- Does kind `k` match between the feature set and a claim list: the
feature set holds some value of kind `k` that the claims also hold for
kind `k`?  (Design §4.5 step 2: a kind is counted once however many of its
values match.) -/
def kindMatches (fs : FeatureSet) (cl : List Claim) (k : Kind) : Bool :=
  fs.attrs.any fun kv =>
    kv.1 == k && cl.any fun c => c.kind == k && c.value == kv.2

/-- Modelled from the spec: the similarity score (design §4.5 step 2): the
sum of `weight_of kind` over the distinct kinds shared (with a matching
value) between the feature set and the claims of the candidate, each kind
counted at most once. -/
def score (wt : WeightTable) (fs : FeatureSet) (cl : List Claim) : ℚ :=
  ((kindsOf fs).filter (kindMatches fs cl)).foldr
    (fun k acc => weight_of wt k + acc) 0

/-- The set of attribute kinds present in both the feature set and the
claim list with at least one matching value — the index set of the
similarity sum of the specification. -/
def matchedKinds (fs : FeatureSet) (cl : List Claim) : Finset Kind :=
  (fs.attrs.map Prod.fst).toFinset.filter fun k => kindMatches fs cl k = true

/-- Modelled from the spec: `MERGE_THRESHOLD` is 0.9 (design §4.5 step 4). -/
def MERGE_THRESHOLD : ℚ := 9 / 10

/-- Modelled from the spec: the claims contributed by the feature set of
an observation (design §3): one claim per attribute, carrying the weight
of the kind and the observation id as provenance. -/
def claimsOf (wt : WeightTable) (obsId : Nat) (fs : FeatureSet) : List Claim :=
  fs.attrs.map fun kv => ⟨kv.1, kv.2, weight_of wt kv.1, obsId⟩

/-- Modelled from the spec: the Entity Index (design §4.4): the arena of
entities (id and owned claim set) plus the next fresh entity id. -/
structure EngineState where
  nextId : Nat
  entities : List (EntityId × List Claim)
  deriving DecidableEq, Repr

/-- Does the feature set share at least one `(kind, value)` pair with the
claim list?  This is the candidate criterion of `candidates` (design §4.4). -/
def sharesValue (fs : FeatureSet) (cl : List Claim) : Bool :=
  fs.attrs.any fun kv => cl.any fun c => c.kind == kv.1 && c.value == kv.2

/-- Modelled from the spec: `candidates(feature_set)` (design §4.4): the
entities claiming at least one `(kind, value)` pair present in the feature
set. -/
def candidates (st : EngineState) (fs : FeatureSet) :
    List (EntityId × List Claim) :=
  st.entities.filter fun e => sharesValue fs e.2

/-- Modelled from the spec: pick the highest-scoring candidate, ties broken
by lowest entity id (design §4.5 step 4); returns its id and score. -/
def bestCandidate (wt : WeightTable) (fs : FeatureSet) :
    List (EntityId × List Claim) → Option (EntityId × ℚ)
  | [] => none
  | e :: rest =>
    match bestCandidate wt fs rest with
    | none => some (e.1, score wt fs e.2)
    | some (bi, bs) =>
      if score wt fs e.2 < bs ∨ (score wt fs e.2 = bs ∧ bi < e.1) then
        some (bi, bs)
      else some (e.1, score wt fs e.2)

/-- Modelled from the spec: the error taxonomy item raised by `resolve`
(design §7): `InvalidFeatureSetError`. -/
inductive ResolveError where
  | invalidFeatureSet
  deriving DecidableEq, Repr

/-- A kind is recognized when the weight table carries an entry for it. -/
def recognizedKind (wt : WeightTable) (k : Kind) : Bool :=
  wt.any fun e => e.1 == k

/-- Modelled from the spec: a feature set is valid when it is non-empty and
has at least one recognized kind (design §4.5: resolution fails with
`InvalidFeatureSetError` only if the feature set is empty or has no
recognized kind). -/
def validFeatureSet (wt : WeightTable) (fs : FeatureSet) : Bool :=
  !fs.attrs.isEmpty && fs.attrs.any fun kv => recognizedKind wt kv.1

/-- The candidates that individually meet the merge threshold (design §4.5
step 4). -/
def meetsOf (wt : WeightTable) (st : EngineState) (fs : FeatureSet) :
    List (EntityId × List Claim) :=
  (candidates st fs).filter fun e => decide (MERGE_THRESHOLD ≤ score wt fs e.2)

/-- Modelled from the spec: `resolve(feature_set)` (design §4.5).  An
invalid feature set is rejected before the index is touched.  Otherwise the
candidates are scored; with no candidate, or a best candidate below the
threshold, a new entity is created; when the best candidate meets the
threshold, every candidate individually meeting the threshold is merged
with the incoming claims in one operation, the surviving id being the
lowest merged id (design §4.4). -/
def resolve (wt : WeightTable) (st : EngineState) (obsId : Nat)
    (fs : FeatureSet) : Except ResolveError EntityId × EngineState :=
  if validFeatureSet wt fs then
    let incoming := claimsOf wt obsId fs
    match bestCandidate wt fs (candidates st fs) with
    | none =>
      (Except.ok st.nextId,
        ⟨st.nextId + 1, st.entities ++ [(st.nextId, incoming)]⟩)
    | some (bi, bs) =>
      if MERGE_THRESHOLD ≤ bs then
        let meets := meetsOf wt st fs
        let survivor :=
          match (meets.map Prod.fst).min? with
          | some m => m
          | none => bi
        let merged := meets.foldr (fun e acc => e.2 ++ acc) incoming
        (Except.ok survivor,
          ⟨st.nextId,
            st.entities.filterMap fun e =>
              if e.1 = survivor then some (survivor, merged)
              else if meets.any fun m => m.1 == e.1 then none
              else some e⟩)
      else
        (Except.ok st.nextId,
          ⟨st.nextId + 1, st.entities ++ [(st.nextId, incoming)]⟩)
  else (Except.error ResolveError.invalidFeatureSet, st)

/-- Resolve a sequence of observations (observation id and feature set) in
order, starting from the empty index; a rejected feature set leaves the
index untouched. -/
def resolveAll (wt : WeightTable) (obs : List (Nat × FeatureSet)) :
    EngineState :=
  obs.foldl (fun st p => (resolve wt st p.1 p.2).2) ⟨0, []⟩

/-- Do two observation ids belong to one entity: some entity holds a claim
with provenance `a` and a claim with provenance `b`?  Pointwise equality of
this relation is equality of the final partitions of observations. -/
def sameEntity (st : EngineState) (a b : Nat) : Bool :=
  st.entities.any fun e =>
    (e.2.any fun c => c.prov == a) && (e.2.any fun c => c.prov == b)

/-- The outcome of `resolve` when no candidate meets the threshold: a fresh
entity carrying exactly the incoming claims is appended (design §4.5
steps 1 and 5). -/
def createOutcome (wt : WeightTable) (st : EngineState) (obsId : Nat)
    (fs : FeatureSet) : Prop :=
  resolve wt st obsId fs =
    (Except.ok st.nextId,
      ⟨st.nextId + 1, st.entities ++ [(st.nextId, claimsOf wt obsId fs)]⟩)

/-- The outcome of `resolve` when some candidates meet the threshold: the
returned id is the lowest id among them, the surviving entity holds every
claims of every meeting candidate together with the incoming claims, entities not
merged survive unchanged, and no fresh id is allocated (design §4.4,
§4.5 step 4). -/
def mergeOutcome (wt : WeightTable) (st : EngineState) (obsId : Nat)
    (fs : FeatureSet) : Prop :=
  ∃ surv merged,
    ((meetsOf wt st fs).map Prod.fst).min? = some surv ∧
    (resolve wt st obsId fs).1 = Except.ok surv ∧
    (surv, merged) ∈ (resolve wt st obsId fs).2.entities ∧
    (∀ m ∈ meetsOf wt st fs, ∀ c ∈ m.2, c ∈ merged) ∧
    (∀ c ∈ claimsOf wt obsId fs, c ∈ merged) ∧
    (∀ p ∈ st.entities, p.1 ∉ (meetsOf wt st fs).map Prod.fst →
      p ∈ (resolve wt st obsId fs).2.entities) ∧
    (resolve wt st obsId fs).2.nextId = st.nextId

/-- The best candidate really is a candidate, achieves the maximal score,
and among maximal candidates has the least entity id. -/
def bestOptimal (wt : WeightTable) (fs : FeatureSet)
    (l : List (EntityId × List Claim)) : Prop :=
  ∀ bi bs, bestCandidate wt fs l = some (bi, bs) →
    (∃ cl, (bi, cl) ∈ l ∧ score wt fs cl = bs) ∧
    ∀ p ∈ l, score wt fs p.2 ≤ bs ∧ (score wt fs p.2 = bs → bi ≤ p.1)

/-- Demo weight table for the transitive-merge scenario: two medium kinds
and one fully identifying kind. -/
def wtPQR : WeightTable := [("P", 1 / 2), ("Q", 1 / 2), ("R", 1)]

/-- Scenario feature set A: `{P:1, Q:2}`. -/
def fsA : FeatureSet := ⟨[("P", "1"), ("Q", "2")]⟩

/-- Scenario feature set B: `{P:1, Q:2, R:3}`, linking A and C. -/
def fsB : FeatureSet := ⟨[("P", "1"), ("Q", "2"), ("R", "3")]⟩

/-- Scenario feature set C: `{R:3, S:4}`, sharing nothing with A. -/
def fsC : FeatureSet := ⟨[("R", "3"), ("S", "4")]⟩

/-- Weight table of the order-dependence counterexample: one strong kind
`A` and two medium kinds `C`, `D`. -/
def wtACD : WeightTable := [("A", 9 / 10), ("C", 9 / 20), ("D", 9 / 20)]

/-- Counterexample feature set X: `{A:1, C:3}`. -/
def fsX : FeatureSet := ⟨[("A", "1"), ("C", "3")]⟩

/-- Counterexample feature set Y: `{A:1, D:4}`; X and Y share the strong
kind `A`. -/
def fsY : FeatureSet := ⟨[("A", "1"), ("D", "4")]⟩

/-- Counterexample feature set Z: `{C:3, D:4}`; Z scores 0.45 against X
alone and against Y alone, but 0.9 against their union. -/
def fsZ : FeatureSet := ⟨[("C", "3"), ("D", "4")]⟩

/-- The claims contributed by `fsX` as observation 1 under `wtACD`. -/
def clX : List Claim := [⟨"A", "1", 9 / 10, 1⟩, ⟨"C", "3", 9 / 20, 1⟩]

/-- The claims contributed by `fsY` as observation 2 under `wtACD`. -/
def clY : List Claim := [⟨"A", "1", 9 / 10, 2⟩, ⟨"D", "4", 9 / 20, 2⟩]

/-- The claims contributed by `fsZ` as observation 3 under `wtACD`. -/
def clZ : List Claim := [⟨"C", "3", 9 / 20, 3⟩, ⟨"D", "4", 9 / 20, 3⟩]

/-- The claims contributed by `fsA` as observation 1 under `wtPQR`. -/
def clA : List Claim := [⟨"P", "1", 1 / 2, 1⟩, ⟨"Q", "2", 1 / 2, 1⟩]

/-- The claims contributed by `fsB` as observation 2 under `wtPQR`. -/
def clB : List Claim := [⟨"P", "1", 1 / 2, 2⟩, ⟨"Q", "2", 1 / 2, 2⟩, ⟨"R", "3", 1, 2⟩]

/-- The claims contributed by `fsC` as observation 3 under `wtPQR`. -/
def clC : List Claim := [⟨"R", "3", 1, 3⟩, ⟨"S", "4", 0, 3⟩]

end JonasER

namespace JonasER

/-! ### General lemmas about scoring -/

theorem weight_of_nonneg (wt : WeightTable) (hw : ∀ e ∈ wt, 0 ≤ e.2)
    (k : Kind) : 0 ≤ weight_of wt k := by
  unfold weight_of
  cases h : wt.find? (fun e => e.1 == k) with
  | none => exact le_refl 0
  | some e => exact hw e (List.mem_of_find?_eq_some h)

theorem kindsOf_toFinset (fs : FeatureSet) :
    (kindsOf fs).toFinset = (fs.attrs.map Prod.fst).toFinset := by
  ext k
  simp [kindsOf, List.mem_dedup]

theorem score_eq_sum (wt : WeightTable) (fs : FeatureSet) (cl : List Claim) :
    score wt fs cl = ∑ k ∈ matchedKinds fs cl, weight_of wt k := by
  have h1 : matchedKinds fs cl =
      ((kindsOf fs).filter (kindMatches fs cl)).toFinset := by
    rw [List.toFinset_filter, kindsOf_toFinset]
    rfl
  have h2 : ((kindsOf fs).filter (kindMatches fs cl)).Nodup :=
    ((fs.attrs.map Prod.fst).nodup_dedup).filter _
  rw [h1, List.sum_toFinset _ h2, List.sum_eq_foldr, List.foldr_map]
  rfl

theorem matchedKinds_mono_cons (fs : FeatureSet) (cl : List Claim)
    (kv : Kind × String) :
    matchedKinds fs cl ⊆ matchedKinds ⟨kv :: fs.attrs⟩ cl := by
  intro k hk
  simp only [matchedKinds, Finset.mem_filter, List.mem_toFinset, List.map_cons,
    List.mem_cons] at hk ⊢
  refine ⟨Or.inr hk.1, ?_⟩
  have h2 := hk.2
  simp only [kindMatches, List.any_cons, Bool.or_eq_true] at h2 ⊢
  exact Or.inr h2

theorem score_mono_cons (wt : WeightTable) (fs : FeatureSet) (cl : List Claim)
    (kv : Kind × String) (hw : ∀ e ∈ wt, 0 ≤ e.2) :
    score wt fs cl ≤ score wt ⟨kv :: fs.attrs⟩ cl := by
  rw [score_eq_sum, score_eq_sum]
  exact Finset.sum_le_sum_of_subset_of_nonneg (matchedKinds_mono_cons fs cl kv)
    (fun i _ _ => weight_of_nonneg wt hw i)

/-! ### Symmetry of the candidate criterion and of the score -/

theorem kindMatches_claimsOf (wt : WeightTable) (o : Nat) (fa fb : FeatureSet)
    (k : Kind) :
    kindMatches fa (claimsOf wt o fb) k = true ↔
      ∃ v, (k, v) ∈ fa.attrs ∧ (k, v) ∈ fb.attrs := by
  simp only [kindMatches, claimsOf, List.any_eq_true, List.mem_map,
    Bool.and_eq_true, beq_iff_eq]
  constructor
  · rintro ⟨⟨k1, v1⟩, hkv, rfl, c, ⟨⟨k2, v2⟩, hkv2, rfl⟩, hk, hv⟩
    simp only at hk hv
    subst hk
    subst hv
    exact ⟨v2, hkv, hkv2⟩
  · rintro ⟨v, ha, hb⟩
    exact ⟨(k, v), ha, rfl, ⟨k, v, weight_of wt k, o⟩, ⟨(k, v), hb, rfl⟩, rfl, rfl⟩

theorem matchedKinds_comm (wt : WeightTable) (oa ob : Nat)
    (fa fb : FeatureSet) :
    matchedKinds fa (claimsOf wt ob fb) = matchedKinds fb (claimsOf wt oa fa) := by
  ext k
  simp only [matchedKinds, Finset.mem_filter, List.mem_toFinset, List.mem_map,
    kindMatches_claimsOf]
  constructor
  · rintro ⟨-, v, ha, hb⟩
    exact ⟨⟨(k, v), hb, rfl⟩, v, hb, ha⟩
  · rintro ⟨-, v, hb, ha⟩
    exact ⟨⟨(k, v), ha, rfl⟩, v, ha, hb⟩

theorem score_comm (wt : WeightTable) (oa ob : Nat) (fa fb : FeatureSet) :
    score wt fa (claimsOf wt ob fb) = score wt fb (claimsOf wt oa fa) := by
  rw [score_eq_sum, score_eq_sum, matchedKinds_comm wt oa ob fa fb]

theorem sharesValue_claimsOf_iff (wt : WeightTable) (o : Nat)
    (fa fb : FeatureSet) :
    sharesValue fa (claimsOf wt o fb) = true ↔
      ∃ kv, kv ∈ fa.attrs ∧ kv ∈ fb.attrs := by
  simp only [sharesValue, claimsOf, List.any_eq_true, List.mem_map,
    Bool.and_eq_true, beq_iff_eq]
  constructor
  · rintro ⟨⟨k1, v1⟩, h1, c, ⟨⟨k2, v2⟩, h2, rfl⟩, hk, hv⟩
    simp only at hk hv
    subst hk
    subst hv
    exact ⟨(k2, v2), h1, h2⟩
  · rintro ⟨⟨k, v⟩, h1, h2⟩
    exact ⟨(k, v), h1, ⟨k, v, weight_of wt k, o⟩, ⟨(k, v), h2, rfl⟩, rfl, rfl⟩

theorem sharesValue_comm (wt : WeightTable) (oa ob : Nat) (fa fb : FeatureSet) :
    sharesValue fa (claimsOf wt ob fb) = sharesValue fb (claimsOf wt oa fa) := by
  rw [Bool.eq_iff_iff, sharesValue_claimsOf_iff, sharesValue_claimsOf_iff]
  constructor <;> rintro ⟨kv, h1, h2⟩ <;> exact ⟨kv, h2, h1⟩

end JonasER

namespace JonasER

/-! ### Stepping lemmas for `resolve` -/

theorem resolve_invalid (wt : WeightTable) (st : EngineState) (o : Nat)
    (fs : FeatureSet) (hv : validFeatureSet wt fs = false) :
    resolve wt st o fs = (Except.error ResolveError.invalidFeatureSet, st) := by
  simp [resolve, hv]

theorem resolve_emptyState (wt : WeightTable) (o : Nat) (fs : FeatureSet)
    (hv : validFeatureSet wt fs = true) :
    resolve wt ⟨0, []⟩ o fs = (Except.ok 0, ⟨1, [(0, claimsOf wt o fs)]⟩) := by
  simp [resolve, hv, candidates, bestCandidate]

theorem candidates_oneEntity (n : Nat) (i : EntityId) (c1 : List Claim)
    (fs : FeatureSet) :
    candidates ⟨n, [(i, c1)]⟩ fs = if sharesValue fs c1 then [(i, c1)] else [] := by
  by_cases hs : sharesValue fs c1 = true
  · simp [candidates, hs]
  · simp only [Bool.not_eq_true] at hs
    simp [candidates, hs]

theorem resolve_oneEntity_merge (wt : WeightTable) (n : Nat) (i : EntityId)
    (c1 : List Claim) (o : Nat) (fs : FeatureSet)
    (hv : validFeatureSet wt fs = true)
    (hs : sharesValue fs c1 = true)
    (hθ : MERGE_THRESHOLD ≤ score wt fs c1) :
    resolve wt ⟨n, [(i, c1)]⟩ o fs =
      (Except.ok i, ⟨n, [(i, c1 ++ claimsOf wt o fs)]⟩) := by
  have hc : candidates ⟨n, [(i, c1)]⟩ fs = [(i, c1)] := by
    simp [candidates_oneEntity, hs]
  have hb : bestCandidate wt fs [(i, c1)] = some (i, score wt fs c1) := by
    simp [bestCandidate]
  have hm : meetsOf wt ⟨n, [(i, c1)]⟩ fs = [(i, c1)] := by
    simp [meetsOf, hc, hθ]
  simp [resolve, hv, hc, hb, hm, hθ, List.min?]

theorem resolve_oneEntity_create (wt : WeightTable) (n : Nat) (i : EntityId)
    (c1 : List Claim) (o : Nat) (fs : FeatureSet)
    (hv : validFeatureSet wt fs = true)
    (h : sharesValue fs c1 = false ∨ score wt fs c1 < MERGE_THRESHOLD) :
    resolve wt ⟨n, [(i, c1)]⟩ o fs =
      (Except.ok n, ⟨n + 1, [(i, c1), (n, claimsOf wt o fs)]⟩) := by
  by_cases hs : sharesValue fs c1 = true
  · have hθ : ¬ MERGE_THRESHOLD ≤ score wt fs c1 := by
      rcases h with h | h
      · rw [hs] at h
        exact absurd h (by simp)
      · exact not_le_of_lt h
    have hc : candidates ⟨n, [(i, c1)]⟩ fs = [(i, c1)] := by
      simp [candidates_oneEntity, hs]
    have hb : bestCandidate wt fs [(i, c1)] = some (i, score wt fs c1) := by
      simp [bestCandidate]
    simp [resolve, hv, hc, hb, hθ]
  · simp only [Bool.not_eq_true] at hs
    have hc : candidates ⟨n, [(i, c1)]⟩ fs = [] := by
      simp [candidates_oneEntity, hs]
    simp [resolve, hv, hc, bestCandidate]

end JonasER

namespace JonasER

theorem resolveAll_pair (wt : WeightTable) (o1 : Nat) (f1 : FeatureSet)
    (o2 : Nat) (f2 : FeatureSet) :
    resolveAll wt [(o1, f1), (o2, f2)] =
      (resolve wt (resolve wt ⟨0, []⟩ o1 f1).2 o2 f2).2 := rfl

/-- C1 (amended): resolving any two feature sets in either order yields the
same final partition of the underlying observations into entities — stated
as pointwise equality of the `sameEntity` relation between the two final
index states (the transient entity ids may differ). -/
theorem c1_pair_sequence_neutrality (wt : WeightTable) (o1 : Nat)
    (f1 : FeatureSet) (o2 : Nat) (f2 : FeatureSet) (a b : Nat) :
    sameEntity (resolveAll wt [(o1, f1), (o2, f2)]) a b =
      sameEntity (resolveAll wt [(o2, f2), (o1, f1)]) a b := by
  rw [resolveAll_pair, resolveAll_pair]
  by_cases hv1 : validFeatureSet wt f1 = true
  · by_cases hv2 : validFeatureSet wt f2 = true
    · simp only [resolve_emptyState wt o1 f1 hv1, resolve_emptyState wt o2 f2 hv2]
      by_cases hs : sharesValue f2 (claimsOf wt o1 f1) = true
      · have hs' : sharesValue f1 (claimsOf wt o2 f2) = true := by
          rw [sharesValue_comm wt o1 o2 f1 f2]
          exact hs
        by_cases hθ : MERGE_THRESHOLD ≤ score wt f2 (claimsOf wt o1 f1)
        · have hθ' : MERGE_THRESHOLD ≤ score wt f1 (claimsOf wt o2 f2) := by
            rw [score_comm wt o1 o2 f1 f2]
            exact hθ
          simp only [resolve_oneEntity_merge wt 1 0 _ o2 f2 hv2 hs hθ,
            resolve_oneEntity_merge wt 1 0 _ o1 f1 hv1 hs' hθ']
          simp [sameEntity, List.any_append, Bool.or_comm]
        · have hθ' : ¬ MERGE_THRESHOLD ≤ score wt f1 (claimsOf wt o2 f2) := by
            rw [score_comm wt o1 o2 f1 f2]
            exact hθ
          simp only [resolve_oneEntity_create wt 1 0 _ o2 f2 hv2
              (Or.inr (lt_of_not_le hθ)),
            resolve_oneEntity_create wt 1 0 _ o1 f1 hv1
              (Or.inr (lt_of_not_le hθ'))]
          simp [sameEntity, Bool.or_comm, Bool.and_comm]
      · simp only [Bool.not_eq_true] at hs
        have hs' : sharesValue f1 (claimsOf wt o2 f2) = false := by
          rw [sharesValue_comm wt o1 o2 f1 f2]
          exact hs
        simp only [resolve_oneEntity_create wt 1 0 _ o2 f2 hv2 (Or.inl hs),
          resolve_oneEntity_create wt 1 0 _ o1 f1 hv1 (Or.inl hs')]
        simp [sameEntity, Bool.or_comm, Bool.and_comm]
    · simp only [Bool.not_eq_true] at hv2
      simp only [resolve_emptyState wt o1 f1 hv1, resolve_invalid wt _ o2 f2 hv2]
  · simp only [Bool.not_eq_true] at hv1
    by_cases hv2 : validFeatureSet wt f2 = true
    · simp only [resolve_invalid wt _ o1 f1 hv1, resolve_emptyState wt o2 f2 hv2]
    · simp only [Bool.not_eq_true] at hv2
      simp only [resolve_invalid wt _ o1 f1 hv1, resolve_invalid wt _ o2 f2 hv2]

end JonasER

namespace JonasER

/-! ### Concrete evaluation lemmas for the demo inputs -/

theorem claimsOf_fsX : claimsOf wtACD 1 fsX = clX := by
  simp [claimsOf, weight_of, wtACD, fsX, clX, List.find?]

theorem claimsOf_fsY : claimsOf wtACD 2 fsY = clY := by
  simp [claimsOf, weight_of, wtACD, fsY, clY, List.find?]

theorem claimsOf_fsZ : claimsOf wtACD 3 fsZ = clZ := by
  simp [claimsOf, weight_of, wtACD, fsZ, clZ, List.find?]

theorem weight_wtACD_A : weight_of wtACD "A" = 9 / 10 := rfl

theorem weight_wtACD_C : weight_of wtACD "C" = 9 / 20 := rfl

theorem weight_wtACD_D : weight_of wtACD "D" = 9 / 20 := rfl

theorem score_fsY_clX : score wtACD fsY clX = 9 / 10 := by
  have hl : (kindsOf fsY).filter (kindMatches fsY clX) = ["A"] := by decide
  norm_num [score, hl, weight_wtACD_A]

theorem score_fsZ_clX : score wtACD fsZ clX = 9 / 20 := by
  have hl : (kindsOf fsZ).filter (kindMatches fsZ clX) = ["C"] := by decide
  norm_num [score, hl, weight_wtACD_C]

theorem score_fsY_clZ : score wtACD fsY clZ = 9 / 20 := by
  have hl : (kindsOf fsY).filter (kindMatches fsY clZ) = ["D"] := by decide
  norm_num [score, hl, weight_wtACD_D]

theorem score_fsZ_clXY : score wtACD fsZ (clX ++ clY) = 9 / 10 := by
  have hl : (kindsOf fsZ).filter (kindMatches fsZ (clX ++ clY)) = ["C", "D"] := by
    decide
  norm_num [score, hl, weight_wtACD_C, weight_wtACD_D]

theorem resolve_step_X : resolve wtACD ⟨0, []⟩ 1 fsX =
    (Except.ok 0, ⟨1, [(0, clX)]⟩) := by
  rw [resolve_emptyState wtACD 1 fsX (by decide), claimsOf_fsX]

theorem resolve_step_XY : resolve wtACD ⟨1, [(0, clX)]⟩ 2 fsY =
    (Except.ok 0, ⟨1, [(0, clX ++ clY)]⟩) := by
  rw [resolve_oneEntity_merge wtACD 1 0 clX 2 fsY (by decide) (by decide)
    (by rw [score_fsY_clX]; norm_num [MERGE_THRESHOLD]), claimsOf_fsY]

theorem resolve_step_XYZ : resolve wtACD ⟨1, [(0, clX ++ clY)]⟩ 3 fsZ =
    (Except.ok 0, ⟨1, [(0, (clX ++ clY) ++ clZ)]⟩) := by
  rw [resolve_oneEntity_merge wtACD 1 0 (clX ++ clY) 3 fsZ (by decide) (by decide)
    (by rw [score_fsZ_clXY]; norm_num [MERGE_THRESHOLD]), claimsOf_fsZ]

theorem resolve_step_XZ : resolve wtACD ⟨1, [(0, clX)]⟩ 3 fsZ =
    (Except.ok 1, ⟨2, [(0, clX), (1, clZ)]⟩) := by
  rw [resolve_oneEntity_create wtACD 1 0 clX 3 fsZ (by decide)
    (Or.inr (by rw [score_fsZ_clX]; norm_num [MERGE_THRESHOLD])), claimsOf_fsZ]

theorem resolve_step_XZY : resolve wtACD ⟨2, [(0, clX), (1, clZ)]⟩ 2 fsY =
    (Except.ok 0, ⟨2, [(0, clX ++ clY), (1, clZ)]⟩) := by
  have hc : candidates ⟨2, [(0, clX), (1, clZ)]⟩ fsY = [(0, clX), (1, clZ)] := by
    simp [candidates, sharesValue, fsY, clX, clZ]
  have h1 : ¬ (9 / 10 : ℚ) < 9 / 20 := by norm_num
  have h2 : ¬ (9 / 10 : ℚ) = 9 / 20 := by norm_num
  have hb : bestCandidate wtACD fsY [(0, clX), (1, clZ)] = some (0, 9 / 10) := by
    simp [bestCandidate, score_fsY_clX, score_fsY_clZ, h1, h2]
  have h3 : MERGE_THRESHOLD ≤ score wtACD fsY clX := by
    rw [score_fsY_clX]
    norm_num [MERGE_THRESHOLD]
  have h4 : ¬ MERGE_THRESHOLD ≤ score wtACD fsY clZ := by
    rw [score_fsY_clZ]
    norm_num [MERGE_THRESHOLD]
  have hm : meetsOf wtACD ⟨2, [(0, clX), (1, clZ)]⟩ fsY = [(0, clX)] := by
    simp [meetsOf, hc, h3, h4]
  have hθ : MERGE_THRESHOLD ≤ (9 / 10 : ℚ) := by norm_num [MERGE_THRESHOLD]
  have hv : validFeatureSet wtACD fsY = true := by decide
  simp [resolve, hv, hc, hb, hm, hθ, List.min?, claimsOf_fsY]

/-- C1 (counterexample): the final partition of observations is not
invariant under a permutation of the resolution order.  With the weight
table `wtACD`, resolving `X, Y, Z` puts observations 1 and 3 in one entity,
while resolving the permuted order `X, Z, Y` leaves them in different
entities, because `Z` scores 0.9 against the merged claims of `X` and `Y`
but only 0.45 against each alone. -/
theorem c1_counterexample :
    [(1, fsX), (3, fsZ), (2, fsY)].Perm [(1, fsX), (2, fsY), (3, fsZ)] ∧
    sameEntity (resolveAll wtACD [(1, fsX), (2, fsY), (3, fsZ)]) 1 3 = true ∧
    sameEntity (resolveAll wtACD [(1, fsX), (3, fsZ), (2, fsY)]) 1 3 = false := by
  refine ⟨by decide, ?_, ?_⟩
  · have h : resolveAll wtACD [(1, fsX), (2, fsY), (3, fsZ)] =
        (resolve wtACD (resolve wtACD (resolve wtACD ⟨0, []⟩ 1 fsX).2 2 fsY).2
          3 fsZ).2 := rfl
    rw [h, resolve_step_X]
    simp only []
    rw [resolve_step_XY]
    simp only []
    rw [resolve_step_XYZ]
    decide
  · have h : resolveAll wtACD [(1, fsX), (3, fsZ), (2, fsY)] =
        (resolve wtACD (resolve wtACD (resolve wtACD ⟨0, []⟩ 1 fsX).2 3 fsZ).2
          2 fsY).2 := rfl
    rw [h, resolve_step_X]
    simp only []
    rw [resolve_step_XZ]
    simp only []
    rw [resolve_step_XZY]
    decide

end JonasER

namespace JonasER

/-! ### The best candidate and the threshold decision -/

theorem bestCandidate_eq_none_iff (wt : WeightTable) (fs : FeatureSet)
    (l : List (EntityId × List Claim)) :
    bestCandidate wt fs l = none ↔ l = [] := by
  cases l with
  | nil => simp [bestCandidate]
  | cons e rest =>
    simp only [bestCandidate]
    constructor
    · intro hnone
      exfalso
      cases h : bestCandidate wt fs rest with
      | none =>
        rw [h] at hnone
        exact Option.noConfusion hnone
      | some p =>
        obtain ⟨bi, bs⟩ := p
        simp only [h] at hnone
        by_cases hc : score wt fs e.2 < bs ∨ (score wt fs e.2 = bs ∧ bi < e.1)
        · rw [if_pos hc] at hnone
          exact Option.noConfusion hnone
        · rw [if_neg hc] at hnone
          exact Option.noConfusion hnone
    · intro h
      exact List.noConfusion h

theorem bestCandidate_optimal (wt : WeightTable) (fs : FeatureSet)
    (l : List (EntityId × List Claim)) : bestOptimal wt fs l := by
  induction l with
  | nil =>
    intro bi bs h
    simp [bestCandidate] at h
  | cons e rest ih =>
    intro bi bs h
    simp only [bestCandidate] at h
    cases hrest : bestCandidate wt fs rest with
    | none =>
      simp only [hrest] at h
      simp only [Option.some.injEq, Prod.mk.injEq] at h
      obtain ⟨rfl, rfl⟩ := h
      have hrestnil : rest = [] := (bestCandidate_eq_none_iff wt fs rest).mp hrest
      subst hrestnil
      refine ⟨⟨e.2, ?_, rfl⟩, ?_⟩
      · rw [Prod.mk.eta]
        exact List.mem_cons_self e []
      · intro q hq
        rcases List.mem_cons.mp hq with rfl | hq'
        · exact ⟨le_refl _, fun _ => le_refl _⟩
        · cases hq'
    | some p =>
      obtain ⟨bj, bs'⟩ := p
      simp only [hrest] at h
      obtain ⟨⟨cl, hclmem, hcls⟩, hall⟩ := ih bj bs' hrest
      by_cases hc : score wt fs e.2 < bs' ∨ (score wt fs e.2 = bs' ∧ bj < e.1)
      · rw [if_pos hc] at h
        simp only [Option.some.injEq, Prod.mk.injEq] at h
        obtain ⟨rfl, rfl⟩ := h
        refine ⟨⟨cl, List.mem_cons_of_mem e hclmem, hcls⟩, ?_⟩
        intro q hq
        rcases List.mem_cons.mp hq with rfl | hq'
        · constructor
          · rcases hc with hlt | ⟨heq, _⟩
            · exact le_of_lt hlt
            · exact le_of_eq heq
          · intro heq2
            rcases hc with hlt | ⟨heq, hltid⟩
            · exact absurd heq2 (ne_of_lt hlt)
            · exact le_of_lt hltid
        · exact hall q hq'
      · rw [if_neg hc] at h
        simp only [Option.some.injEq, Prod.mk.injEq] at h
        obtain ⟨rfl, rfl⟩ := h
        push_neg at hc
        obtain ⟨hle, himp⟩ := hc
        refine ⟨⟨e.2, ?_, rfl⟩, ?_⟩
        · rw [Prod.mk.eta]
          exact List.mem_cons_self e rest
        · intro q hq
          rcases List.mem_cons.mp hq with rfl | hq'
          · exact ⟨le_refl _, fun _ => le_refl _⟩
          · have h1 := (hall q hq').1
            constructor
            · exact le_trans h1 hle
            · intro heq
              have hbs' : score wt fs e.2 = bs' := by
                refine le_antisymm ?_ hle
                rw [← heq]
                exact h1
              have hqbs' : score wt fs q.2 = bs' := by rw [heq, hbs']
              exact le_trans (himp hbs') ((hall q hq').2 hqbs')

theorem mem_foldr_append_of_mem_init (c : Claim)
    (meets : List (EntityId × List Claim)) (init : List Claim) (h : c ∈ init) :
    c ∈ meets.foldr (fun e acc => e.2 ++ acc) init := by
  induction meets with
  | nil => exact h
  | cons m ms ih => exact List.mem_append_right _ ih

theorem mem_foldr_append_of_mem (c : Claim)
    (meets : List (EntityId × List Claim)) (init : List Claim)
    (m : EntityId × List Claim) (hm : m ∈ meets) (hc : c ∈ m.2) :
    c ∈ meets.foldr (fun e acc => e.2 ++ acc) init := by
  induction meets with
  | nil => cases hm
  | cons m0 ms ih =>
    rcases List.mem_cons.mp hm with rfl | hm'
    · exact List.mem_append_left _ hc
    · exact List.mem_append_right _ (ih hm')

theorem resolve_create_of_meets_nil (wt : WeightTable) (st : EngineState)
    (o : Nat) (fs : FeatureSet) (hv : validFeatureSet wt fs = true)
    (hm : meetsOf wt st fs = []) : createOutcome wt st o fs := by
  unfold createOutcome
  cases hbest : bestCandidate wt fs (candidates st fs) with
  | none => simp [resolve, hv, hbest]
  | some p =>
    obtain ⟨bi, bs⟩ := p
    obtain ⟨⟨cl, hclmem, hcls⟩, -⟩ :=
      bestCandidate_optimal wt fs (candidates st fs) bi bs hbest
    have hno : ¬ MERGE_THRESHOLD ≤ bs := by
      intro hθ
      have hmem : (bi, cl) ∈ meetsOf wt st fs := by
        refine List.mem_filter.mpr ⟨hclmem, ?_⟩
        simp only [decide_eq_true_eq]
        rw [hcls]
        exact hθ
      rw [hm] at hmem
      cases hmem
    simp [resolve, hv, hbest, hno]

theorem resolve_merge_of_meets_ne_nil (wt : WeightTable) (st : EngineState)
    (o : Nat) (fs : FeatureSet) (hv : validFeatureSet wt fs = true)
    (hm : meetsOf wt st fs ≠ []) : mergeOutcome wt st o fs := by
  obtain ⟨m, hmmem⟩ := List.exists_mem_of_ne_nil _ hm
  have hmf := List.mem_filter.mp hmmem
  have hθm : MERGE_THRESHOLD ≤ score wt fs m.2 := of_decide_eq_true hmf.2
  have hcne : candidates st fs ≠ [] := List.ne_nil_of_mem hmf.1
  cases hbest : bestCandidate wt fs (candidates st fs) with
  | none => exact absurd ((bestCandidate_eq_none_iff _ _ _).mp hbest) hcne
  | some p =>
    obtain ⟨bi, bs⟩ := p
    obtain ⟨⟨cl, hclmem, hcls⟩, hall⟩ :=
      bestCandidate_optimal wt fs (candidates st fs) bi bs hbest
    have hθbs : MERGE_THRESHOLD ≤ bs := le_trans hθm ((hall m hmf.1).1)
    have hmapne : (meetsOf wt st fs).map Prod.fst ≠ [] := by
      simpa using hm
    obtain ⟨x, xs, hx⟩ := List.exists_cons_of_ne_nil hmapne
    have hmin : ((meetsOf wt st fs).map Prod.fst).min? = some (xs.foldl min x) := by
      rw [hx]
      rfl
    have hsurvmem : xs.foldl min x ∈ (meetsOf wt st fs).map Prod.fst :=
      List.min?_mem min_choice hmin
    have hres : resolve wt st o fs =
        (Except.ok (xs.foldl min x),
          ⟨st.nextId,
            st.entities.filterMap fun e =>
              if e.1 = xs.foldl min x then
                some (xs.foldl min x,
                  (meetsOf wt st fs).foldr (fun e acc => e.2 ++ acc)
                    (claimsOf wt o fs))
              else if (meetsOf wt st fs).any fun mm => mm.1 == e.1 then none
              else some e⟩) := by
      simp [resolve, hv, hbest, hθbs, hmin]
    refine ⟨xs.foldl min x,
      (meetsOf wt st fs).foldr (fun e acc => e.2 ++ acc) (claimsOf wt o fs),
      hmin, ?_, ?_, ?_, ?_, ?_, ?_⟩
    · rw [hres]
    · rw [hres]
      obtain ⟨mp, hmpmem, hmpfst⟩ := List.mem_map.mp hsurvmem
      have hmpc : mp ∈ candidates st fs := (List.mem_filter.mp hmpmem).1
      have hmpe : mp ∈ st.entities := (List.mem_filter.mp hmpc).1
      refine List.mem_filterMap.mpr ⟨mp, hmpe, ?_⟩
      simp [hmpfst]
    · intro mm hmm c hc
      exact mem_foldr_append_of_mem c _ _ mm hmm hc
    · intro c hc
      exact mem_foldr_append_of_mem_init c _ _ hc
    · intro q hq hnot
      rw [hres]
      refine List.mem_filterMap.mpr ⟨q, hq, ?_⟩
      have hq1 : ¬ q.1 = xs.foldl min x := fun h => hnot (h ▸ hsurvmem)
      have hq2 : ((meetsOf wt st fs).any fun mm => mm.1 == q.1) = false := by
        rw [List.any_eq_false]
        intro mm hmm
        simp only [beq_iff_eq]
        intro heq
        exact hnot (List.mem_map.mpr ⟨mm, hmm, heq⟩)
      simp [hq1, hq2]
    · rw [hres]

end JonasER

namespace JonasER

/-! ### Concrete transitive-merge scenario -/

theorem weight_wtPQR_P : weight_of wtPQR "P" = 1 / 2 := rfl

theorem weight_wtPQR_Q : weight_of wtPQR "Q" = 1 / 2 := rfl

theorem weight_wtPQR_R : weight_of wtPQR "R" = 1 := rfl

theorem claimsOf_fsA : claimsOf wtPQR 1 fsA = clA := by
  simp [claimsOf, weight_of, wtPQR, fsA, clA, List.find?]

theorem claimsOf_fsB : claimsOf wtPQR 2 fsB = clB := by
  simp [claimsOf, weight_of, wtPQR, fsB, clB, List.find?]

theorem claimsOf_fsC : claimsOf wtPQR 3 fsC = clC := by
  simp [claimsOf, weight_of, wtPQR, fsC, clC, List.find?]

theorem score_fsB_clA : score wtPQR fsB clA = 1 := by
  have hl : (kindsOf fsB).filter (kindMatches fsB clA) = ["P", "Q"] := by decide
  norm_num [score, hl, weight_wtPQR_P, weight_wtPQR_Q]

theorem score_fsC_clA : score wtPQR fsC clA = 0 := by
  have hl : (kindsOf fsC).filter (kindMatches fsC clA) = [] := by decide
  norm_num [score, hl]

theorem score_fsC_clAB : score wtPQR fsC (clA ++ clB) = 1 := by
  have hl : (kindsOf fsC).filter (kindMatches fsC (clA ++ clB)) = ["R"] := by
    decide
  norm_num [score, hl, weight_wtPQR_R]

theorem resolve_step_A : resolve wtPQR ⟨0, []⟩ 1 fsA =
    (Except.ok 0, ⟨1, [(0, clA)]⟩) := by
  rw [resolve_emptyState wtPQR 1 fsA (by decide), claimsOf_fsA]

theorem resolve_step_AB : resolve wtPQR ⟨1, [(0, clA)]⟩ 2 fsB =
    (Except.ok 0, ⟨1, [(0, clA ++ clB)]⟩) := by
  rw [resolve_oneEntity_merge wtPQR 1 0 clA 2 fsB (by decide) (by decide)
    (by rw [score_fsB_clA]; norm_num [MERGE_THRESHOLD]), claimsOf_fsB]

theorem resolve_step_ABC : resolve wtPQR ⟨1, [(0, clA ++ clB)]⟩ 3 fsC =
    (Except.ok 0, ⟨1, [(0, (clA ++ clB) ++ clC)]⟩) := by
  rw [resolve_oneEntity_merge wtPQR 1 0 (clA ++ clB) 3 fsC (by decide) (by decide)
    (by rw [score_fsC_clAB]; norm_num [MERGE_THRESHOLD]), claimsOf_fsC]

theorem resolveAll_scenario : resolveAll wtPQR [(1, fsA), (2, fsB), (3, fsC)] =
    ⟨1, [(0, (clA ++ clB) ++ clC)]⟩ := by
  have h : resolveAll wtPQR [(1, fsA), (2, fsB), (3, fsC)] =
      (resolve wtPQR (resolve wtPQR (resolve wtPQR ⟨0, []⟩ 1 fsA).2 2 fsB).2
        3 fsC).2 := rfl
  rw [h, resolve_step_A]
  simp only []
  rw [resolve_step_AB]
  simp only []
  rw [resolve_step_ABC]

end JonasER

namespace JonasER

/-! ### Claim theorems for the resolution engine -/

/-- C2: ingest is idempotent.  If the fingerprint of the payload is already
in the ledger, `ingest` returns the existing observation id with
`is_new = false` and leaves the ledger untouched; in particular a second
ingest of the same payload reports `is_new = false` and changes nothing,
and no error is ever produced (the result type of `ingest` has no error
case — a duplicate is a success with a flag). -/
theorem c2_ingest_idempotent (fp : String → Nat) (led : Ledger)
    (s1 s2 payload : String) :
    ((ingest fp (ingest fp led s1 payload).2 s2 payload).1.2 = false ∧
      (ingest fp (ingest fp led s1 payload).2 s2 payload).2 =
        (ingest fp led s1 payload).2) ∧
    ∀ o, led.entries.find? (fun e => e.fingerprint == fp payload) = some o →
      ingest fp led s1 payload = ((o.obsId, false), led) := by
  constructor
  · cases h : led.entries.find? (fun e => e.fingerprint == fp payload) with
    | some o =>
      have h1 : ingest fp led s1 payload = ((o.obsId, false), led) := by
        simp [ingest, h]
      rw [h1]
      simp [ingest, h]
    | none =>
      have h1 : ingest fp led s1 payload = ((led.nextObsId, true),
          ⟨led.nextObsId + 1, ⟨led.nextObsId, s1, fp payload⟩ :: led.entries⟩) := by
        simp [ingest, h]
      rw [h1]
      simp [ingest, List.find?_cons]
  · intro o h
    simp [ingest, h]

/-- C2 witness: on a concrete ledger already holding the fingerprint, a
repeated ingest is flagged as old, leaves the ledger unchanged, and the
lookup clause applies. -/
theorem c2_witness :
    ((ingest (fun s => s.length) (ingest (fun s => s.length) ⟨5, []⟩ "src" "pay").2
        "src2" "pay").1.2 = false ∧
      (ingest (fun s => s.length) (ingest (fun s => s.length) ⟨5, []⟩ "src" "pay").2
        "src2" "pay").2 =
        (ingest (fun s => s.length) ⟨5, []⟩ "src" "pay").2) ∧
    ∀ o : Observation, (⟨5, []⟩ : Ledger).entries.find?
        (fun e => e.fingerprint == (fun s : String => s.length) "pay") = some o →
      ingest (fun s => s.length) ⟨5, []⟩ "src" "pay" = ((o.obsId, false), ⟨5, []⟩) :=
  c2_ingest_idempotent (fun s => s.length) ⟨5, []⟩ "src" "src2" "pay"

/-- C3: the similarity score equals the sum of `weight_of kind` over the
set of attribute kinds present (with a matching value) in both the feature
set and the claims of the candidate, each kind contributing exactly once no
matter how many of its values match. -/
theorem c3_score_eq_matched_sum (wt : WeightTable) (fs : FeatureSet)
    (cl : List Claim) :
    score wt fs cl = ∑ k ∈ matchedKinds fs cl, weight_of wt k :=
  score_eq_sum wt fs cl

/-- C5: monotonic evidence.  With non-negative weights, extending the
feature set with an attribute whose kind the candidate also claims never
decreases the score of the candidate, and neither does an attribute of a kind
entirely absent from the claims of the candidate. -/
theorem c5_monotonic_evidence (wt : WeightTable) (fs : FeatureSet)
    (cl : List Claim) (k : Kind) (v : String) (hw : ∀ e ∈ wt, 0 ≤ e.2) :
    ((cl.any fun c => c.kind == k && c.value == v) = true →
      score wt fs cl ≤ score wt ⟨(k, v) :: fs.attrs⟩ cl) ∧
    ((cl.any fun c => c.kind == k) = false →
      score wt fs cl ≤ score wt ⟨(k, v) :: fs.attrs⟩ cl) :=
  ⟨fun _ => score_mono_cons wt fs cl (k, v) hw,
   fun _ => score_mono_cons wt fs cl (k, v) hw⟩

/-- C5 witness: concrete instance — adding the matching attribute `(A, 1)`
to `fsZ`, and adding an attribute of the absent kind `E`, never decrease
the score against the claims `clX`. -/
theorem c5_witness :
    ((clX.any fun c => c.kind == "A" && c.value == "1") = true →
      score wtACD fsZ clX ≤ score wtACD ⟨("A", "1") :: fsZ.attrs⟩ clX) ∧
    ((clX.any fun c => c.kind == "A") = false →
      score wtACD fsZ clX ≤ score wtACD ⟨("A", "1") :: fsZ.attrs⟩ clX) :=
  c5_monotonic_evidence wtACD fsZ clX "A" "1"
    (by
      intro e he
      simp only [wtACD, List.mem_cons, List.not_mem_nil, or_false] at he
      rcases he with rfl | rfl | rfl <;> norm_num)

/-- C6: enrichment gating.  `applicable_for` returns exactly the
registrations whose full trigger-kind set is contained in the kinds of the
feature set, as an order-preserving sublist of the registry; each such
registration is returned exactly as often as it was registered.  In
particular an `{ORG, GPE}` enricher is never selected for a phone-only
feature set and is selected exactly once when `ORG`, `GPE` and `PHONE` are
all present. -/
theorem c6_enrichment_gating (reg : List Registration) (fs : FeatureSet) :
    (∀ r, r ∈ applicable_for reg fs ↔
      r ∈ reg ∧ ∀ k ∈ r.triggerKinds, hasKind fs k = true) ∧
    (applicable_for reg fs).Sublist reg ∧
    (∀ r : Registration, (applicable_for reg fs).count r =
      if ∀ k ∈ r.triggerKinds, hasKind fs k = true then reg.count r else 0) ∧
    applicable_for [⟨["ORG", "GPE"], 7⟩] ⟨[("PHONE", "555")]⟩ = [] ∧
    (applicable_for [⟨["ORG", "GPE"], 7⟩]
        ⟨[("ORG", "o"), ("GPE", "g"), ("PHONE", "555")]⟩).count
      ⟨["ORG", "GPE"], 7⟩ = 1 := by
  refine ⟨?_, List.filter_sublist reg, ?_, by decide, by decide⟩
  · intro r
    simp [applicable_for, List.mem_filter, List.all_eq_true]
  · intro r
    by_cases hall : ∀ k ∈ r.triggerKinds, hasKind fs k = true
    · rw [if_pos hall]
      exact List.count_filter (by rw [List.all_eq_true]; exact hall)
    · rw [if_neg hall]
      refine List.count_eq_zero.mpr ?_
      intro hmem
      exact hall (List.all_eq_true.mp (List.mem_filter.mp hmem).2)

/-- C6 witness: the characterization applied to the one-registration
registry and the feature set carrying all three kinds. -/
theorem c6_witness :
    (⟨["ORG", "GPE"], 7⟩ : Registration) ∈
      applicable_for [⟨["ORG", "GPE"], 7⟩]
        ⟨[("ORG", "o"), ("GPE", "g"), ("PHONE", "555")]⟩ :=
  (c6_enrichment_gating [⟨["ORG", "GPE"], 7⟩]
      ⟨[("ORG", "o"), ("GPE", "g"), ("PHONE", "555")]⟩).1 ⟨["ORG", "GPE"], 7⟩
    |>.mpr ⟨by decide, by decide⟩

theorem validFeatureSet_eq_false_iff (wt : WeightTable) (fs : FeatureSet) :
    validFeatureSet wt fs = false ↔
      (fs.attrs = [] ∨ ∀ kv ∈ fs.attrs, recognizedKind wt kv.1 = false) := by
  constructor
  · intro h
    by_cases he : fs.attrs = []
    · exact Or.inl he
    · right
      intro kv hkv
      by_cases hr : recognizedKind wt kv.1 = true
      · exfalso
        have : validFeatureSet wt fs = true := by
          simp only [validFeatureSet, Bool.and_eq_true, Bool.not_eq_true',
            List.any_eq_true]
          exact ⟨by simpa [List.isEmpty_iff] using he, kv, hkv, hr⟩
        rw [h] at this
        exact Bool.noConfusion this
      · simpa using hr
  · intro h
    rcases h with h | h
    · simp [validFeatureSet, h]
    · simp only [validFeatureSet, Bool.and_eq_false_iff]
      right
      rw [List.any_eq_false]
      intro kv hkv
      rw [h kv hkv]
      exact Bool.false_ne_true

/-- C7: the resolve error contract.  `resolve` fails with
`InvalidFeatureSetError` exactly when the feature set is empty or carries
no recognized kind, and on failure the Entity Index state is returned
untouched.  (Determinism is inherent: `resolve` is a function of its
arguments.) -/
theorem c7_resolve_error_contract (wt : WeightTable) (st : EngineState)
    (obsId : Nat) (fs : FeatureSet) :
    ((resolve wt st obsId fs).1 = Except.error ResolveError.invalidFeatureSet ↔
      (fs.attrs = [] ∨ ∀ kv ∈ fs.attrs, recognizedKind wt kv.1 = false)) ∧
    ((resolve wt st obsId fs).1 = Except.error ResolveError.invalidFeatureSet →
      (resolve wt st obsId fs).2 = st) := by
  by_cases hv : validFeatureSet wt fs = true
  · have hne : (resolve wt st obsId fs).1 ≠
        Except.error ResolveError.invalidFeatureSet := by
      cases hbest : bestCandidate wt fs (candidates st fs) with
      | none => simp [resolve, hv, hbest]
      | some p =>
        obtain ⟨bi, bs⟩ := p
        by_cases hθ : MERGE_THRESHOLD ≤ bs <;> simp [resolve, hv, hbest, hθ]
    constructor
    · constructor
      · intro h
        exact absurd h hne
      · intro h
        exfalso
        have : validFeatureSet wt fs = false :=
          (validFeatureSet_eq_false_iff wt fs).mpr h
        rw [hv] at this
        exact Bool.noConfusion this
    · intro h
      exact absurd h hne
  · have hv' : validFeatureSet wt fs = false := by
      simpa using hv
    rw [resolve_invalid wt st obsId fs hv']
    exact ⟨by simpa using (validFeatureSet_eq_false_iff wt fs).mp hv',
      fun _ => rfl⟩

/-- C7 witness: the contract applied to the empty feature set over the demo
weight table: the error is raised and the index is unchanged. -/
theorem c7_witness :
    ((resolve wtACD ⟨1, [(0, clX)]⟩ 9 ⟨[]⟩).1 =
        Except.error ResolveError.invalidFeatureSet ↔
      ((⟨[]⟩ : FeatureSet).attrs = [] ∨
        ∀ kv ∈ (⟨[]⟩ : FeatureSet).attrs, recognizedKind wtACD kv.1 = false)) ∧
    ((resolve wtACD ⟨1, [(0, clX)]⟩ 9 ⟨[]⟩).1 =
        Except.error ResolveError.invalidFeatureSet →
      (resolve wtACD ⟨1, [(0, clX)]⟩ 9 ⟨[]⟩).2 = ⟨1, [(0, clX)]⟩) :=
  c7_resolve_error_contract wtACD ⟨1, [(0, clX)]⟩ 9 ⟨[]⟩

end JonasER

namespace JonasER

/-- C4: the threshold decision and the transitive merge.  For a valid
feature set: the selected best candidate achieves the maximal score with
ties broken by the lowest entity id; when no candidate meets the 0.9
threshold a fresh entity is created instead of attaching to the best
insufficient match; when candidates meet the threshold, all of them are
merged with the incoming claims into the surviving lowest merged id in one
operation.  Concretely, for the scenario with `score(A,B) ≥ 0.9`,
`score(B,C) ≥ 0.9` and `score(A,C) < 0.9`, resolving `A, B, C` in sequence
yields a single entity containing all three observations. -/
theorem c4_threshold_transitive_merge (wt : WeightTable) (st : EngineState)
    (obsId : Nat) (fs : FeatureSet) (hv : validFeatureSet wt fs = true) :
    bestOptimal wt fs (candidates st fs) ∧
    (meetsOf wt st fs = [] → createOutcome wt st obsId fs) ∧
    (meetsOf wt st fs ≠ [] → mergeOutcome wt st obsId fs) ∧
    score wtPQR fsC clA < MERGE_THRESHOLD ∧
    MERGE_THRESHOLD ≤ score wtPQR fsB clA ∧
    MERGE_THRESHOLD ≤ score wtPQR fsC (clA ++ clB) ∧
    resolveAll wtPQR [(1, fsA), (2, fsB), (3, fsC)] =
      ⟨1, [(0, (clA ++ clB) ++ clC)]⟩ ∧
    (resolveAll wtPQR [(1, fsA), (2, fsB), (3, fsC)]).entities.length = 1 ∧
    sameEntity (resolveAll wtPQR [(1, fsA), (2, fsB), (3, fsC)]) 1 2 = true ∧
    sameEntity (resolveAll wtPQR [(1, fsA), (2, fsB), (3, fsC)]) 1 3 = true := by
  refine ⟨bestCandidate_optimal wt fs (candidates st fs),
    resolve_create_of_meets_nil wt st obsId fs hv,
    resolve_merge_of_meets_ne_nil wt st obsId fs hv,
    ?_, ?_, ?_, resolveAll_scenario, ?_, ?_, ?_⟩
  · rw [score_fsC_clA]
    norm_num [MERGE_THRESHOLD]
  · rw [score_fsB_clA]
    norm_num [MERGE_THRESHOLD]
  · rw [score_fsC_clAB]
    norm_num [MERGE_THRESHOLD]
  · rw [resolveAll_scenario]
    decide
  · rw [resolveAll_scenario]
    decide
  · rw [resolveAll_scenario]
    decide

/-- C4 witness: the decision characterization instantiated at the demo
weight table, a concrete one-entity state and the feature set `fsB`. -/
theorem c4_witness :
    bestOptimal wtPQR fsB (candidates ⟨1, [(0, clA)]⟩ fsB) ∧
    (meetsOf wtPQR ⟨1, [(0, clA)]⟩ fsB = [] →
      createOutcome wtPQR ⟨1, [(0, clA)]⟩ 2 fsB) ∧
    (meetsOf wtPQR ⟨1, [(0, clA)]⟩ fsB ≠ [] →
      mergeOutcome wtPQR ⟨1, [(0, clA)]⟩ 2 fsB) ∧
    score wtPQR fsC clA < MERGE_THRESHOLD ∧
    MERGE_THRESHOLD ≤ score wtPQR fsB clA ∧
    MERGE_THRESHOLD ≤ score wtPQR fsC (clA ++ clB) ∧
    resolveAll wtPQR [(1, fsA), (2, fsB), (3, fsC)] =
      ⟨1, [(0, (clA ++ clB) ++ clC)]⟩ ∧
    (resolveAll wtPQR [(1, fsA), (2, fsB), (3, fsC)]).entities.length = 1 ∧
    sameEntity (resolveAll wtPQR [(1, fsA), (2, fsB), (3, fsC)]) 1 2 = true ∧
    sameEntity (resolveAll wtPQR [(1, fsA), (2, fsB), (3, fsC)]) 1 3 = true :=
  c4_threshold_transitive_merge wtPQR ⟨1, [(0, clA)]⟩ 2 fsB (by decide)

end JonasER

namespace WeekCalendar

/-! ### Claim theorems for `script.js` -/

theorem birthdayTitleTest_birthday_paren (s : String) :
    birthdayTitleTest ("Birthday (" ++ s ++ ")") = true := rfl

theorem hasBirthday_after_ensure (dp : String → Option Int)
    (fd : Int → String) (b : Option String) (ms : Option (List Milestone)) :
    hasBirthdayMilestone (ensureBirthdayMilestone dp fd b ms) = true := by
  unfold ensureBirthdayMilestone
  by_cases h : hasBirthdayMilestone (ms.getD []) = true
  · simp [h]
  · simp only [Bool.not_eq_true] at h
    simp only [h, Bool.false_eq_true, if_false]
    simp [hasBirthdayMilestone, isZeroAge, birthdayTitleTest_birthday_paren]

theorem ensure_of_has (dp : String → Option Int) (fd : Int → String)
    (b : Option String) (l : List Milestone)
    (h : hasBirthdayMilestone l = true) :
    ensureBirthdayMilestone dp fd b (some l) = l := by
  simp [ensureBirthdayMilestone, h]

/-- C8: `ensureBirthdayMilestone` is idempotent.  Its first application
either returns the list unchanged (a zero-age milestone with a
birthday-matching title already exists) or prepends an age-0 milestone
titled `Birthday (…)`, which itself satisfies the test, so the second
application returns its input unchanged and never adds a duplicate
birthday entry. -/
theorem c8_ensure_birthday_idempotent (dp : String → Option Int)
    (fd : Int → String) (b : Option String) (ms : Option (List Milestone)) :
    ensureBirthdayMilestone dp fd b
        (some (ensureBirthdayMilestone dp fd b ms)) =
      ensureBirthdayMilestone dp fd b ms :=
  ensure_of_has dp fd b _ (hasBirthday_after_ensure dp fd b ms)

/-- C9: `formatBirthdate` falls back to its input.  When the date fails to
parse (`new Date(input).getTime()` is `NaN`, modelled by `none`) the input
string is returned unchanged; when it parses, the locale-formatted string
of the parsed instant is returned. -/
theorem c9_format_birthdate_fallback (dp : String → Option Int)
    (fd : Int → String) (input : String) :
    (dp input = none → formatBirthdate dp fd input = input) ∧
    (∀ t, dp input = some t → formatBirthdate dp fd input = fd t) := by
  constructor
  · intro h
    simp [formatBirthdate, h]
  · intro t h
    simp [formatBirthdate, h]

/-- C9 witness: a non-parsing input is returned unchanged. -/
theorem c9_witness :
    formatBirthdate (fun _ => none) (fun _ => "4 Jun 1981") "not-a-date" =
      "not-a-date" :=
  (c9_format_birthdate_fallback (fun _ => none) (fun _ => "4 Jun 1981")
    "not-a-date").1 rfl

/-- C10: `calculateWeeksLived` is the floor of `|today − birthdate|` over
one week, hence never negative; a birthdate at least one week in the
future yields a strictly positive count, and `updateStats` reports exactly
this value as the weeks lived. -/
theorem c10_weeks_lived_nonneg (todayMs birthMs : Int) :
    0 ≤ calculateWeeksLived todayMs birthMs ∧
    calculateWeeksLived todayMs birthMs = |todayMs - birthMs| / msPerWeek ∧
    (todayMs + msPerWeek ≤ birthMs → 0 < calculateWeeksLived todayMs birthMs) ∧
    (updateStats todayMs birthMs 90).weeksLived =
      calculateWeeksLived todayMs birthMs := by
  refine ⟨?_, rfl, ?_, rfl⟩
  · show (0 : Int) ≤ |todayMs - birthMs| / 604800000
    have h := abs_nonneg (todayMs - birthMs)
    omega
  · intro h
    show (0 : Int) < |todayMs - birthMs| / 604800000
    have hweek : msPerWeek = 604800000 := rfl
    rw [hweek] at h
    have h2 : (604800000 : Int) ≤ |todayMs - birthMs| := by
      rw [abs_sub_comm, abs_of_nonneg (by linarith)]
      linarith
    omega

/-- C10 witness: for a birthdate two weeks in the future of `today = 0`,
the weeks-lived count is strictly positive. -/
theorem c10_witness : 0 < calculateWeeksLived 0 (msPerWeek * 2) :=
  (c10_weeks_lived_nonneg 0 (msPerWeek * 2)).2.2.1 (by norm_num [msPerWeek])

end WeekCalendar
